import Mathlib

/-!
Verification of the mssh (Message Stream Shell) core, shallow-embedded from
`src/mssh.go`.  Strings are modelled as lists of characters (the source only
manipulates ASCII bytes), Go's `(value, error)` returns are modelled by the
`GoResult` type, whose `panic` constructor records a Go runtime panic
(out-of-range index or slice).  External collaborators (the messageStream
transport, `net.DialTimeout`, `encoding/csv`, `strconv.ParseFloat`, file
persistence, stdin) are modelled as an explicit `Collab` record of oracles and
as an input line list; their invocations are recorded as an event trace.
-/

namespace Mssh


/-- Go strings, as lists of (ASCII) characters. -/
abbrev Str := List Char


/-- Convenience conversion from Lean string literals. -/
def str (s : String) : Str := s.data


/-- The error values produced by the source (each constructor corresponds to
one `fmt.Errorf` site or collaborator failure), plus the `ErrQuit` sentinel. -/
inductive Err where
  | missingCommandType
  | missingChildName
  | unterminatedStringLiteral
  | unterminatedChildElement
  | missingCommandAfterBang
  | parseFloatError
  | dialError
  | transportError
  | saveError
  | notConnectedLogin
  | unsupportedCommand
  | csvError
  | missingShortcutName
  | undefinedShortcut (name : Str)
  | invalidArgumentIndex (i : Nat)
  | recursionLimitExceeded
  | notConnected
  | quit
  deriving DecidableEq


/-- Outcome of a Go function returning `(value, error)`: a runtime panic,
a returned non-nil error, or a normal result. -/
inductive GoResult (α : Type) where
  | panic : GoResult α
  | err : Err → GoResult α
  | ok : α → GoResult α
  deriving DecidableEq


/-- A child of an element: either a literal string value or a nested element
(`ms.Element.Children` holds both). -/
inductive Node where
  | value : Str → Node
  | elem : Str → List (Str × Str) → List Node → Node


/-- An `ms.Element` under construction: name, attribute map (modelled as an
association list with overwrite-on-insert), ordered children. -/
structure PElem where
  name : Str
  attrs : List (Str × Str)
  children : List Node


/-- View a finished element as a child node. -/
def PElem.toNode (e : PElem) : Node := .elem e.name e.attrs e.children


/-- Go map assignment `attrs[k] = v` on the association-list model:
overwrite the existing binding or append a new one. -/
def setAttr (attrs : List (Str × Str)) (k v : Str) : List (Str × Str) :=
  match attrs with
  | [] => [(k, v)]
  | (k', v') :: rest => if k' = k then (k, v) :: rest else (k', v') :: setAttr rest k v


/-- Go map lookup `m[k]` with its `found` flag, as an `Option`. -/
def lookupSc (m : List (Str × Str)) (k : Str) : Option Str :=
  (m.find? (fun p => p.1 = k)).map (fun p => p.2)


/-- `Element.GetAttribute(name, default)`. -/
def getAttrD (e : PElem) (k d : Str) : Str :=
  match lookupSc e.attrs k with
  | some v => v
  | none => d


/-- Membership in the cutset `" \t"` of `strings.Trim`. -/
def isSpaceTab (c : Char) : Bool := c == ' ' || c == '\t'


/-- `strings.Trim(s, " \t")`: drop spaces and tabs from both ends. -/
def trimSpaceTab (s : Str) : Str :=
  ((s.dropWhile isSpaceTab).reverse.dropWhile isSpaceTab).reverse


/-- `strings.Split(s, sep)` for a one-character separator: always returns at
least one (possibly empty) piece; `Split("", sep) = [""]` as in Go. -/
def splitOnChar (sep : Char) : Str → List Str
  | [] => [[]]
  | c :: rest =>
    if c = sep then [] :: splitOnChar sep rest
    else
      match splitOnChar sep rest with
      | [] => [[c]]
      | t :: ts => (c :: t) :: ts


/-- Position of the first occurrence of `sep`, splitting the string around it. -/
def breakAt (sep : Char) : Str → Option (Str × Str)
  | [] => none
  | c :: rest =>
    if c = sep then some ([], rest)
    else (breakAt sep rest).map (fun p => (c :: p.1, p.2))


/-- `strings.SplitN(s, sep, n)` for a one-character separator and `n > 0`. -/
def splitNChar (sep : Char) : Nat → Str → List Str
  | 0, _ => []
  | 1, s => [s]
  | n + 2, s =>
    match breakAt sep s with
    | none => [s]
    | some (a, b) => a :: splitNChar sep (n + 1) b


/-!
## The packet parser (`parseTokens`, `parsePacketCommand`)

`parseTokens(tokens, iToken, element)` is a loop over a token cursor with
recursion into child elements.  It is modelled on the token-list suffix
(`tokens` from the cursor onward), with a fuel parameter for termination;
`parseToksF_isSome` below shows the fuel `tokens.length + 1` used by the
wrapper `parseTokens` is always sufficient, so the wrapper's `.panic`
default is never taken.
-/


/-- The child-name step of the `'<'` branch (mssh.go lines 100-114): either
the name is attached to the `<` token, or it is the next token (missing name
is an error).  Returns the name and the token suffix after it. -/
def childNameOf (tokRest : Str) (rest : List Str) : GoResult (Str × List Str) :=
  if tokRest ≠ [] then .ok (tokRest, rest)
  else
    match rest with
    | [] => .err .missingChildName
    | nm :: rest' => .ok (nm, rest')


/-- Fuelled model of `parseTokens` (mssh.go lines 93-159) acting on the token
suffix.  Returns the remaining suffix (beginning with `">"` or empty) and the
extended element; `none` means the fuel ran out. -/
def parseToksF : Nat → List Str → PElem → Option (GoResult (List Str × PElem))
  | 0, _, _ => none
  | fuel + 1, toks, e =>
    match toks with
    | [] => some (.ok ([], e))
    | tok :: rest =>
      if tok = ['>'] then some (.ok (tok :: rest, e))
      else
        match tok with
        | [] => some .panic
        | c :: tokRest =>
          if c = '<' then
            match childNameOf tokRest rest with
            | .panic => some .panic
            | .err e' => some (.err e')
            | .ok (name, input) =>
              match parseToksF fuel input ⟨name, [], []⟩ with
              | none => none
              | some .panic => some .panic
              | some (.err e') => some (.err e')
              | some (.ok (rem, child)) =>
                match rem with
                | [] => some (.err .unterminatedChildElement)
                | r :: rem' =>
                  if r = ['>'] then
                    parseToksF fuel rem'
                      { e with children := e.children ++ [child.toNode] }
                  else some (.err .unterminatedChildElement)
          else if c ≠ '"' ∧ tok.contains '=' then
            match splitOnChar '=' tok with
            | f0 :: f1 :: _ =>
              parseToksF fuel rest { e with attrs := setAttr e.attrs f0 f1 }
            | _ => some .panic
          else if c = '"' then
            if tok.getLastD ' ' ≠ '"' then some (.err .unterminatedStringLiteral)
            else if tok.length < 2 then some .panic
            else
              parseToksF fuel rest
                { e with children := e.children ++ [Node.value ((tok.drop 1).dropLast)] }
          else
            parseToksF fuel rest { e with children := e.children ++ [Node.value tok] }


/-- `parseTokens` on a token suffix: the fuelled model with always-sufficient
fuel (`parseToksF_isSome`; the `.panic` default is never taken). -/
def parseTokens (toks : List Str) (e : PElem) : GoResult (List Str × PElem) :=
  (parseToksF (toks.length + 1) toks e).getD .panic


/-- `parsePacketCommand` (mssh.go lines 53-91): trim the raw line, detect the
`?` request marker (indexing `command[0]`, which panics on an all-whitespace
line), split on single spaces, take the first token as the `Type` attribute
and parse the rest into the element. -/
def parsePacketCommand (rawCommandLine : Str) : GoResult PElem :=
  let command := trimSpaceTab rawCommandLine
  match command with
  | [] => GoResult.panic
  | c0 :: ctail =>
    let isRequest := c0 = '?'
    let command2 := if c0 = '?' then trimSpaceTab ctail else c0 :: ctail
    let tokens := splitOnChar ' ' command2
    let packetName := if isRequest then str "Request" else str "Message"
    match tokens with
    | [] => GoResult.err .missingCommandType
    | t0 :: trest =>
      let element : PElem := ⟨packetName, setAttr [] (str "Type") t0, []⟩
      match parseTokens trest element with
      | .panic => GoResult.panic
      | .err e => GoResult.err e
      | .ok (_, element') => GoResult.ok element'


/-!
## The macro expander (`ExpandShortcut`)

The substitution loop of `ExpandShortcut` (mssh.go lines 307-322) walks the
stored template byte by byte with an index `i`; `tokens` is the
macro-invocation token list (`tokens[0]` is the macro name, so arguments are
1-indexed).  `shortcut[i+1] - '0'` is Go byte arithmetic, wrapping modulo 256.
-/


/-- The argument index Go computes from the byte after a `$`:
`int(shortcut[i+1] - '0')` with byte wrap-around. -/
def argIndexOf (c : Char) : Nat := (c.toNat + 256 - 48) % 256


/-- The template-substitution loop of `ExpandShortcut` (mssh.go lines
307-322), modelled with the explicit index `i` and accumulator `result`,
plus a fuel parameter for termination (`expandLoopF_isSome` shows the fuel
used by the wrapper `expandLoop` is always sufficient).  All `getD` accesses
are within bounds on the paths where Go reads them (guarded by the
surrounding conditions), so the defaults are inert. -/
def expandLoopF (shortcut : Str) (tokens : List Str) :
    Nat → Nat → Str → Option (GoResult Str)
  | 0, _, _ => none
  | fuel + 1, i, result =>
    if i < shortcut.length then
      if shortcut.getD i ' ' = '$' ∧ 0 < i ∧ shortcut.getD (i - 1) ' ' ≠ '\\' ∧
          i < shortcut.length - 1 then
        if argIndexOf (shortcut.getD (i + 1) ' ') < 1 ∨
            tokens.length ≤ argIndexOf (shortcut.getD (i + 1) ' ') then
          some (GoResult.err (.invalidArgumentIndex (argIndexOf (shortcut.getD (i + 1) ' '))))
        else
          expandLoopF shortcut tokens fuel (i + 2)
            (result ++ tokens.getD (argIndexOf (shortcut.getD (i + 1) ' ')) [])
      else expandLoopF shortcut tokens fuel (i + 1) (result ++ [shortcut.getD i ' '])
    else some (GoResult.ok result)


/-- The substitution loop with always-sufficient fuel (`expandLoopF_isSome`;
the `.panic` default is never taken). -/
def expandLoop (shortcut : Str) (tokens : List Str) (i : Nat) (result : Str) :
    GoResult Str :=
  (expandLoopF shortcut tokens (shortcut.length - i + 1) i result).getD .panic


/-- Substitution scan as the amended specification words it, structurally on
the remaining template with the previous character carried along: a `$` that
has a previous character (it is not the template's first byte), whose previous
character is not a backslash, and that is not the final byte, is an argument
reference; the byte after it is interpreted as index `(byte - '0') mod 256`
with no digit check; an index outside `1..tokens.length - 1` fails with
`InvalidArgumentIndex`; every other byte is copied verbatim. -/
def specSubstGo (tokens : List Str) (prev : Option Char) : Str → GoResult Str
  | [] => GoResult.ok []
  | c :: rest =>
    if c = '$' ∧ prev ≠ none ∧ prev ≠ some '\\' ∧ rest ≠ [] then
      match rest with
      | [] => GoResult.ok []
      | d :: rest' =>
        if 1 ≤ argIndexOf d ∧ argIndexOf d < tokens.length then
          match specSubstGo tokens (some d) rest' with
          | .ok s => GoResult.ok (tokens.getD (argIndexOf d) [] ++ s)
          | r => r
        else GoResult.err (.invalidArgumentIndex (argIndexOf d))
    else
      match specSubstGo tokens (some c) rest with
      | .ok s => GoResult.ok (c :: s)
      | r => r


/-- The amended-specification scan, at the top of a template (no previous
character yet). -/
def specSubst (template : Str) (tokens : List Str) : GoResult Str :=
  specSubstGo tokens none template


/-- Map over the `ok` result, leaving errors and panics alone. -/
def okMap (f : Str → Str) : GoResult Str → GoResult Str
  | .ok s => .ok (f s)
  | .err e => .err e
  | .panic => .panic


/-- The character before position `i` of the template (none at the start). -/
def prevOf (shortcut : Str) (i : Nat) : Option Char :=
  if i = 0 then none else some (shortcut.getD (i - 1) ' ')


/-!
## The session state, collaborators and command dispatcher

`State` (mssh.go lines 40-49) is modelled as `MState`; the `ms.EndPoint`
handle is modelled as the pair of the local name passed to `ms.NewEndPoint`
and the dialed address.  External collaborator behaviour is a `Collab`
record of oracles, and collaborator invocations are recorded in an event
list.  The request timeout is abstract (`Int`): the only operation the core
performs on it is storing the value `strconv.ParseFloat` produces, which the
`parseFloat` oracle models directly.
-/


/-- A live `ms.EndPoint` handle: the name it was created with and the
address of the underlying connection. -/
structure EP where
  name : Str
  addr : Str
  deriving DecidableEq


/-- Observable collaborator invocations. -/
inductive Ev where
  | dial (addr : Str)
  | close (ep : EP)
  | send (p : PElem)
  | submit (p : PElem)
  | save


/-- The mutable `State` of the shell (mssh.go lines 40-49). -/
structure MState where
  endPoint : Option EP
  timeout : Int
  name : Str
  shortcuts : List (Str × Str)
  pendingShortcut : Option Str
  shortcutNesting : Nat
  connectedTo : Str
  deriving DecidableEq


/-- Oracles describing the behaviour of the external collaborators:
`encoding/csv` record reading, `strconv.ParseFloat` (together with the
duration conversion), `net.DialTimeout` success, `EndPoint.Close` success,
`Packet.Send` success, request submission (`none` = error/timeout, `some r`
= reply), `EndPoint.Close` on a nil handle, and shortcut-file persistence
success. -/
structure Collab where
  csvSplit : Str → Option (List Str)
  parseFloat : Str → Option Int
  dialOk : Str → Bool
  closeOk : EP → Bool
  sendOk : PElem → Bool
  submitRes : PElem → Option PElem
  closeNilRes : GoResult Unit
  saveOk : Bool


/-- `State.PushInput` (mssh.go lines 403-413): increment the nesting counter
first; above 10, clear the pending buffer and fail; otherwise store the line
in the one-slot pending buffer. -/
def PushInputFn (st : MState) (line : Str) : GoResult Unit × MState :=
  if st.shortcutNesting + 1 > 10 then
    (GoResult.err .recursionLimitExceeded,
      { st with shortcutNesting := st.shortcutNesting + 1, pendingShortcut := none })
  else
    (GoResult.ok (),
      { st with shortcutNesting := st.shortcutNesting + 1, pendingShortcut := some line })


/-- `State.disconnect` (mssh.go lines 183-189): close the endpoint (a nil
handle makes the collaborator method receive a nil pointer, modelled by the
`closeNilRes` oracle) and clear the handle. -/
def disconnectFn (cb : Collab) (st : MState) : GoResult Unit × MState × List Ev :=
  match st.endPoint with
  | none => (cb.closeNilRes, { st with endPoint := none }, [])
  | some old =>
    ((if cb.closeOk old then GoResult.ok () else GoResult.err .transportError),
      { st with endPoint := none }, [Ev.close old])


/-- `State.connect` (mssh.go lines 161-181): dial the new address first; on
dial failure return the error with the state untouched; on success close any
old connection (aborting if the close fails), then install the new handle
built from the current local name. -/
def connectFn (cb : Collab) (st : MState) (address : Str) :
    GoResult Unit × MState × List Ev :=
  if cb.dialOk address then
    match st.endPoint with
    | some old =>
      if cb.closeOk old then
        (GoResult.ok (), { st with endPoint := some ⟨st.name, address⟩ },
          [Ev.dial address, Ev.close old])
      else
        (GoResult.err .transportError, { st with endPoint := none },
          [Ev.dial address, Ev.close old])
    | none =>
      (GoResult.ok (), { st with endPoint := some ⟨st.name, address⟩ },
        [Ev.dial address])
  else (GoResult.err .dialError, st, [Ev.dial address])


/-- `State.HandleCommand` (mssh.go lines 191-272): split `line[1:]` on
spaces and dispatch on the first character of the first token (panicking on
an empty first token, and on a missing argument for `t`, `c` and `n`). -/
def HandleCommandFn (cb : Collab) (st : MState) (line : Str) :
    GoResult Unit × MState × List Ev :=
  match splitOnChar ' ' (line.drop 1) with
  | [] => (GoResult.err .missingCommandAfterBang, st, [])
  | t0 :: trest =>
    match t0 with
    | [] => (GoResult.panic, st, [])
    | c :: _ =>
      if c = 'q' then
        match st.endPoint with
        | some old =>
          (GoResult.err .quit, { st with endPoint := none }, [Ev.close old])
        | none => (GoResult.err .quit, st, [])
      else if c = 't' then
        match trest with
        | [] => (GoResult.panic, st, [])
        | t1 :: _ =>
          match cb.parseFloat t1 with
          | none => (GoResult.err .parseFloatError, st, [])
          | some d => (GoResult.ok (), { st with timeout := d }, [])
      else if c = 'c' then
        match trest with
        | [] => (GoResult.panic, st, [])
        | t1 :: _ => connectFn cb st t1
      else if c = 'd' then disconnectFn cb st
      else if c = 'n' then
        match trest with
        | [] => (GoResult.panic, st, [])
        | t1 :: _ => (GoResult.ok (), { st with name := t1 }, [])
      else if c = 's' then
        match splitNChar ' ' 3 line with
        | [] => (GoResult.panic, st, [])
        | [_] => (GoResult.ok (), st, [])
        | [_, _] => (GoResult.ok (), st, [])
        | _ :: k :: v :: _ =>
          ((if cb.saveOk then GoResult.ok () else GoResult.err .saveError),
            { st with shortcuts := setAttr st.shortcuts k v }, [Ev.save])
      else if c = 'l' then
        match st.endPoint with
        | none => (GoResult.err .notConnectedLogin, st, [])
        | some ep =>
          match cb.submitRes ⟨str "Request",
              [(str "Type", str "_Login"), (str "Name", ep.name)], []⟩ with
          | none =>
            (GoResult.err .transportError, st,
              [Ev.submit ⟨str "Request",
                [(str "Type", str "_Login"), (str "Name", ep.name)], []⟩])
          | some reply =>
            (GoResult.ok (),
              { st with connectedTo := getAttrD reply (str "Name") (str "-?-") },
              [Ev.submit ⟨str "Request",
                [(str "Type", str "_Login"), (str "Name", ep.name)], []⟩])
      else (GoResult.err .unsupportedCommand, st, [])


/-- `State.ExpandShortcut` (mssh.go lines 280-330): split `line[1:]` with the
csv reader, detect the `?` preview marker (panicking on an empty first
token), look the shortcut up, run the substitution loop and either preview
the result or push it as pending input. -/
def ExpandShortcutFn (cb : Collab) (st : MState) (line : Str) :
    GoResult Unit × MState × List Ev :=
  match cb.csvSplit (line.drop 1) with
  | none => (GoResult.err .csvError, st, [])
  | some tokens =>
    match tokens with
    | [] => (GoResult.err .missingShortcutName, st, [])
    | t0 :: _ =>
      match t0 with
      | [] => (GoResult.panic, st, [])
      | c :: rest0 =>
        match lookupSc st.shortcuts (if c = '?' then rest0 else t0) with
        | none =>
          (GoResult.err (.undefinedShortcut (if c = '?' then rest0 else t0)), st, [])
        | some template =>
          match expandLoop template tokens 0 [] with
          | .panic => (GoResult.panic, st, [])
          | .err e => (GoResult.err e, st, [])
          | .ok result =>
            if c = '?' then (GoResult.ok (), st, [])
            else ((PushInputFn st result).1, (PushInputFn st result).2, [])


/-- `State.Execute` (mssh.go lines 332-375): dispatch on the first character
(`!` command, `@` shortcut, otherwise a packet line, which requires an
active connection; `Message` packets are sent, `Request` packets are
submitted). -/
def ExecuteFn (cb : Collab) (st : MState) (line : Str) :
    GoResult Unit × MState × List Ev :=
  match line with
  | [] => (GoResult.ok (), st, [])
  | c :: _ =>
    if c = '!' then HandleCommandFn cb st line
    else if c = '@' then ExpandShortcutFn cb st line
    else
      match st.endPoint with
      | none => (GoResult.err .notConnected, st, [])
      | some _ =>
        match parsePacketCommand line with
        | .panic => (GoResult.panic, st, [])
        | .err e => (GoResult.err e, st, [])
        | .ok elem =>
          if elem.name ≠ str "Request" then
            ((if cb.sendOk elem then GoResult.ok () else GoResult.err .transportError),
              st, [Ev.send elem])
          else
            match cb.submitRes elem with
            | none => (GoResult.err .transportError, st, [Ev.submit elem])
            | some _ => (GoResult.ok (), st, [Ev.submit elem])


/-- `State.GetInput` (mssh.go lines 377-401): with no pending line, reset the
nesting counter and read the next stdin line (`none` when stdin is
exhausted, mirroring the read error); with a pending line, consume it
without resetting the counter. -/
def GetInputFn (st : MState) (stdin : List Str) :
    Option Str × MState × List Str :=
  match st.pendingShortcut with
  | none =>
    match stdin with
    | [] => (none, { st with shortcutNesting := 0 }, [])
    | l :: rest => (some l, { st with shortcutNesting := 0 }, rest)
  | some l => (some l, { st with pendingShortcut := none }, stdin)


/-- Result of one iteration of the `main` loop: keep looping, leave on the
`Quit` sentinel, or crash on a Go panic. -/
inductive StepOut where
  | next (st : MState) (stdin : List Str) (evs : List Ev)
  | quit (st : MState) (evs : List Ev)
  | crash


/-- One iteration of the `main` loop (mssh.go lines 472-487): read input
(on a read error just report and continue), execute, stop only on the
`Quit` sentinel, report any other error and continue. -/
def mainStep (cb : Collab) (st : MState) (stdin : List Str) : StepOut :=
  match GetInputFn st stdin with
  | (none, st', stdin') => StepOut.next st' stdin' []
  | (some line, st', stdin') =>
    match ExecuteFn cb st' line with
    | (.panic, _, _) => StepOut.crash
    | (.err .quit, st2, evs) => StepOut.quit st2 evs
    | (.err _, st2, evs) => StepOut.next st2 stdin' evs
    | (.ok _, st2, evs) => StepOut.next st2 stdin' evs


/-- A running or finished session. -/
inductive RunSt where
  | running (st : MState) (stdin : List Str)
  | done (st : MState)
  | crashed
  deriving DecidableEq


/-- Iterate the `main` loop `n` times (`done` and `crashed` are absorbing). -/
def runN (cb : Collab) : Nat → RunSt → RunSt
  | 0, s => s
  | n + 1, RunSt.running st stdin =>
    (match mainStep cb st stdin with
      | StepOut.next st2 stdin2 _ => runN cb n (RunSt.running st2 stdin2)
      | StepOut.quit st2 _ => RunSt.done st2
      | StepOut.crash => RunSt.crashed)
  | _ + 1, s => s


/-- The initial state built in `main` (mssh.go lines 458-466), with the
shortcut table loaded from `mssh-shortcuts.txt` (`loadShortcuts` accepts any
`name:definition` lines, so any table is reachable at startup). -/
def initState (shortcuts : List (Str × Str)) : MState :=
  ⟨none, 2, str "mssh", shortcuts, none, 0, str "-?-"⟩


/-- A concrete, deterministic collaborator instantiation used for witnesses
and counterexamples: the csv reader behaves as Go's on quote-free,
comma-free fields, dial/close/send/save succeed, submits time out. -/
def cbDemo : Collab where
  csvSplit := fun s => some (splitOnChar ' ' s)
  parseFloat := fun _ => none
  dialOk := fun _ => true
  closeOk := fun _ => true
  sendOk := fun _ => true
  submitRes := fun _ => none
  closeNilRes := GoResult.ok ()
  saveOk := true


/-- The recursive demo shortcut table: `a` expands to `@a`. -/
def demoSc : List (Str × Str) := [(str "a", str "@a")]


/-- A demo state with an active connection to `h1:1`. -/
def stConnDemo : MState :=
  { initState [] with endPoint := some ⟨str "mssh", str "h1:1"⟩ }


/-- The nesting counter of a session, for stating reachability facts. -/
def nestingOf : RunSt → Nat
  | .running st _ => st.shortcutNesting
  | .done st => st.shortcutNesting
  | .crashed => 0


/-!
## The nesting-depth invariant

The counter is reset by every fresh interactive read and incremented only by
`PushInputFn`, which caps it: at the instant the recursion limit trips, the
counter transiently holds 11 (the increment happens before the check) and the
pending buffer is cleared; whenever an expansion is actually pending, the
counter is at most 10.
-/


/-- The invariant that actually holds for the counter: at most 11 overall,
and at most 10 whenever an expansion is pending. -/
def NestInv (st : MState) : Prop :=
  st.shortcutNesting ≤ 11 ∧ (st.pendingShortcut ≠ none → st.shortcutNesting ≤ 10)


/-- The invariant, lifted to loop iterations. -/
def StepInv : StepOut → Prop
  | .next st _ _ => NestInv st
  | .quit st _ => NestInv st
  | .crash => True


/-- The invariant, lifted to whole sessions. -/
def RunInv : RunSt → Prop
  | .running st _ => NestInv st
  | .done st => NestInv st
  | .crashed => True


/-- `splitOnChar` never returns the empty list (mirrors Go `strings.Split`,
which always yields at least one piece). -/
theorem splitOnChar_ne_nil (sep : Char) (s : Str) : splitOnChar sep s ≠ [] := by
  cases s with
  | nil => simp [splitOnChar]
  | cons c rest =>
    unfold splitOnChar
    split
    · simp
    · cases h : splitOnChar sep rest <;> simp


/-- `childNameOf` consumes tokens: the returned suffix is no longer than
`rest` plus the token itself. -/
theorem childNameOf_length (tokRest : Str) (rest : List Str) (name : Str)
    (input : List Str) (h : childNameOf tokRest rest = .ok (name, input)) :
    input.length ≤ rest.length := by
  unfold childNameOf at h
  split at h
  · simp at h
    obtain ⟨-, h2⟩ := h
    subst h2
    exact le_rfl
  · cases rest with
    | nil => simp at h
    | cons nm rest' =>
      simp at h
      obtain ⟨-, h2⟩ := h
      subst h2
      simp


/-- On success, `parseToksF` only shortens the token list. -/
theorem parseToksF_length :
    ∀ fuel toks e rem e', parseToksF fuel toks e = some (.ok (rem, e')) →
      rem.length ≤ toks.length := by
  intro fuel
  induction fuel with
  | zero => intro toks e rem e' h; simp [parseToksF] at h
  | succ n ih =>
    intro toks e rem e' h
    unfold parseToksF at h
    match toks with
    | [] =>
      simp at h
      obtain ⟨h1, -⟩ := h
      simp [← h1]
    | tok :: rest =>
      simp only at h
      split at h
      · simp at h
        obtain ⟨h1, -⟩ := h
        simp [← h1]
      · match tok with
        | [] => simp at h
        | c :: tokRest =>
          simp only at h
          split at h
          · -- the '<' branch
            split at h
            · simp at h
            · simp at h
            · rename_i name input hni
              have hinput : input.length ≤ rest.length := childNameOf_length _ _ _ _ hni
              split at h
              · simp at h
              · simp at h
              · simp at h
              · rename_i rem0 child hrec
                split at h
                · simp at h
                · rename_i r rem' _
                  split at h
                  · have h1 := ih _ _ _ _ h
                    have h2 := ih _ _ _ _ hrec
                    simp at h2 ⊢
                    omega
                  · simp at h
          · split at h
            · split at h
              · have h1 := ih _ _ _ _ h
                simp at h1 ⊢
                omega
              · simp at h
            · split at h
              · split at h
                · simp at h
                · split at h
                  · simp at h
                  · have h1 := ih _ _ _ _ h
                    simp at h1 ⊢
                    omega
              · have h1 := ih _ _ _ _ h
                simp at h1 ⊢
                omega


/-- Fuel adequacy: with fuel exceeding the token count, `parseToksF` never
runs out of fuel. -/
theorem parseToksF_isSome :
    ∀ fuel toks e, toks.length < fuel → (parseToksF fuel toks e).isSome := by
  intro fuel
  induction fuel with
  | zero => intro toks e h; omega
  | succ n ih =>
    intro toks e h
    unfold parseToksF
    match toks with
    | [] => simp
    | tok :: rest =>
      simp only
      split
      · simp
      · match tok with
        | [] => simp
        | c :: tokRest =>
          simp only
          split
          · -- the '<' branch
            split
            · simp
            · simp
            · rename_i name input hni
              have hinput : input.length ≤ rest.length := childNameOf_length _ _ _ _ hni
              have hrec := ih input ⟨name, [], []⟩ (by simp at h; omega)
              split
              · rename_i hcase
                rw [hcase] at hrec
                simp at hrec
              · simp
              · simp
              · rename_i rem child hcase
                have hlen := parseToksF_length n input ⟨name, [], []⟩ rem child hcase
                split
                · simp
                · rename_i r rem'
                  split
                  · exact ih rem' _ (by simp at h hlen ⊢; omega)
                  · simp
          · split
            · split
              · exact ih rest _ (by simp at h ⊢; omega)
              · simp
            · split
              · split
                · simp
                · split
                  · simp
                  · exact ih rest _ (by simp at h ⊢; omega)
              · exact ih rest _ (by simp at h ⊢; omega)


/-- Fuel adequacy for the substitution loop. -/
theorem expandLoopF_isSome (shortcut : Str) (tokens : List Str) :
    ∀ fuel i result, shortcut.length - i < fuel →
      (expandLoopF shortcut tokens fuel i result).isSome := by
  intro fuel
  induction fuel with
  | zero => intro i result h; omega
  | succ n ih =>
    intro i result h
    rw [expandLoopF]
    by_cases hlt : i < shortcut.length
    · rw [if_pos hlt]
      split
      · split
        · simp
        · exact ih (i + 2) _ (by omega)
      · exact ih (i + 1) _ (by omega)
    · rw [if_neg hlt]
      simp


theorem drop_getD_cons (l : Str) (i : Nat) (h : i < l.length) :
    l.drop i = l.getD i ' ' :: l.drop (i + 1) := by
  rw [List.drop_eq_getElem_cons h, List.getD_eq_getElem]


/-- Bridge between the indexed Go loop and the structural specification scan:
from any position `i` with accumulator `acc`, the loop computes the
accumulator followed by the scan of the remaining template, with the previous
character of the template standing in for the loop's `shortcut[i-1]` test. -/
theorem expandLoopF_eq_specSubstGo (shortcut : Str) (tokens : List Str) :
    ∀ fuel i acc, shortcut.length - i < fuel →
      expandLoopF shortcut tokens fuel i acc =
        some (okMap (fun s => acc ++ s)
          (specSubstGo tokens (prevOf shortcut i) (shortcut.drop i))) := by
  intro fuel
  induction fuel with
  | zero => intro i acc hk; omega
  | succ k ih =>
    intro i acc hk
    by_cases hlt : i < shortcut.length
    · rw [expandLoopF, if_pos hlt]
      rw [drop_getD_cons shortcut i hlt]
      by_cases hcond : shortcut.getD i ' ' = '$' ∧ 0 < i ∧
          shortcut.getD (i - 1) ' ' ≠ '\\' ∧ i < shortcut.length - 1
      · rw [if_pos hcond]
        obtain ⟨hc, hi0, hbs, hilast⟩ := hcond
        have hi0' : ¬ i = 0 := by omega
        have hi1 : i + 1 < shortcut.length := by omega
        have hspec : shortcut.getD i ' ' = '$' ∧ prevOf shortcut i ≠ none ∧
            prevOf shortcut i ≠ some '\\' ∧ shortcut.drop (i + 1) ≠ [] := by
          refine ⟨hc, ?_, ?_, ?_⟩
          · rw [prevOf, if_neg hi0']
            simp
          · rw [prevOf, if_neg hi0']
            intro hE
            exact hbs (Option.some.inj hE)
          · rw [drop_getD_cons shortcut (i + 1) hi1]
            simp
        rw [specSubstGo.eq_def]
        dsimp only
        rw [if_pos hspec]
        rw [drop_getD_cons shortcut (i + 1) hi1]
        dsimp only
        by_cases hidx : 1 ≤ argIndexOf (shortcut.getD (i + 1) ' ') ∧
            argIndexOf (shortcut.getD (i + 1) ' ') < tokens.length
        · rw [if_neg (by omega), if_pos hidx]
          have hstep : i + 2 = i + 1 + 1 := rfl
          rw [ih (i + 2) (acc ++ tokens.getD (argIndexOf (shortcut.getD (i + 1) ' ')) [])
            (by omega), hstep]
          have hprev : prevOf shortcut (i + 1 + 1) = some (shortcut.getD (i + 1) ' ') := by
            rw [prevOf, if_neg (by omega : ¬ i + 1 + 1 = 0)]
            simp
          rw [hprev]
          cases specSubstGo tokens (some (shortcut.getD (i + 1) ' '))
              (shortcut.drop (i + 1 + 1)) with
          | panic => simp [okMap]
          | err e => simp [okMap]
          | ok s => simp [okMap]
        · rw [if_pos (by omega), if_neg hidx]
          simp [okMap]
      · rw [if_neg hcond]
        have hspec : ¬ (shortcut.getD i ' ' = '$' ∧ prevOf shortcut i ≠ none ∧
            prevOf shortcut i ≠ some '\\' ∧ shortcut.drop (i + 1) ≠ []) := by
          intro hsp
          obtain ⟨hc, hpn, hpb, hdr⟩ := hsp
          have hi0' : ¬ i = 0 := by
            intro h0
            exact hpn (by rw [prevOf, if_pos h0])
          refine hcond ⟨hc, by omega, ?_, ?_⟩
          · intro hbs
            exact hpb (by rw [prevOf, if_neg hi0', hbs])
          · by_contra hge
            exact hdr (List.drop_eq_nil_of_le (by omega))
        rw [specSubstGo.eq_def]
        dsimp only
        rw [if_neg hspec]
        rw [ih (i + 1) (acc ++ [shortcut.getD i ' ']) (by omega)]
        have hprev : prevOf shortcut (i + 1) = some (shortcut.getD i ' ') := by
          rw [prevOf, if_neg (by omega : ¬ i + 1 = 0)]
          simp
        rw [hprev]
        cases specSubstGo tokens (some (shortcut.getD i ' '))
            (shortcut.drop (i + 1)) with
        | panic => simp [okMap]
        | err e => simp [okMap]
        | ok s => simp [okMap]
    · rw [expandLoopF, if_neg hlt]
      rw [List.drop_eq_nil_of_le (by omega)]
      simp [specSubstGo, okMap]


/-- Claim C2 (amended): for every stored shortcut template and argument
list, the substitution loop agrees with the specification scan `specSubst`:
scanning left to right, a `$` that is not the template's first byte, is not
preceded by a backslash, and is not the final byte is an argument reference
whose following byte is interpreted as index `(byte - '0') mod 256` with no
digit check; an index of 0 or one exceeding the supplied argument count
fails with the invalid-argument-index error; every other byte — including a
`$` at the first or last position, or an escaped `$` — is copied verbatim. -/
theorem expandLoop_eq_specSubst (template : Str) (tokens : List Str) :
    expandLoop template tokens 0 [] = specSubst template tokens := by
  rw [expandLoop]
  rw [expandLoopF_eq_specSubstGo template tokens (template.length - 0 + 1) 0 [] (by omega)]
  rw [specSubst]
  have h0 : prevOf template 0 = none := by rw [prevOf, if_pos rfl]
  rw [h0, List.drop_zero]
  cases specSubstGo tokens none template with
  | panic => simp [okMap]
  | err e => simp [okMap]
  | ok s => simp [okMap]


/-!
## Frame lemmas: which functions touch the pending buffer and the counter

Only `GetInputFn` and `PushInputFn` write `pendingShortcut` or
`shortcutNesting`; the command dispatcher and the packet path never do.
-/


theorem connectFn_nesting (cb : Collab) (st : MState) (a : Str) :
    (connectFn cb st a).2.1.shortcutNesting = st.shortcutNesting := by
  unfold connectFn
  split
  · split
    · split <;> simp
    · simp
  · simp


theorem connectFn_pending (cb : Collab) (st : MState) (a : Str) :
    (connectFn cb st a).2.1.pendingShortcut = st.pendingShortcut := by
  unfold connectFn
  split
  · split
    · split <;> simp
    · simp
  · simp


theorem disconnectFn_nesting (cb : Collab) (st : MState) :
    (disconnectFn cb st).2.1.shortcutNesting = st.shortcutNesting := by
  unfold disconnectFn
  split <;> simp


theorem disconnectFn_pending (cb : Collab) (st : MState) :
    (disconnectFn cb st).2.1.pendingShortcut = st.pendingShortcut := by
  unfold disconnectFn
  split <;> simp


theorem HandleCommandFn_nesting (cb : Collab) (st : MState) (line : Str) :
    (HandleCommandFn cb st line).2.1.shortcutNesting = st.shortcutNesting := by
  unfold HandleCommandFn
  repeat' split
  all_goals simp [connectFn_nesting, disconnectFn_nesting]


theorem HandleCommandFn_pending (cb : Collab) (st : MState) (line : Str) :
    (HandleCommandFn cb st line).2.1.pendingShortcut = st.pendingShortcut := by
  unfold HandleCommandFn
  repeat' split
  all_goals simp [connectFn_pending, disconnectFn_pending]


/-- `PushInputFn` is the only place the counter grows, and it grows by
exactly one. -/
theorem PushInputFn_nesting (st : MState) (line : Str) :
    ((PushInputFn st line).2).shortcutNesting = st.shortcutNesting + 1 := by
  unfold PushInputFn
  split <;> simp


/-- The state after `ExpandShortcutFn` is either the input state or the
state `PushInputFn` produced. -/
theorem ExpandShortcutFn_state (cb : Collab) (st : MState) (line : Str) :
    (ExpandShortcutFn cb st line).2.1 = st ∨
    ∃ result, (ExpandShortcutFn cb st line).1 = (PushInputFn st result).1 ∧
      (ExpandShortcutFn cb st line).2.1 = (PushInputFn st result).2 := by
  unfold ExpandShortcutFn
  repeat' split
  all_goals simp
  exact Or.inr ⟨_, rfl, rfl⟩


/-- The state after the packet path of `ExecuteFn` (a line that is neither a
command nor a shortcut) is the input state. -/
theorem ExecuteFn_packet_state (cb : Collab) (st : MState) (c : Char)
    (rest : Str) (hb : ¬ c = '!') (ha : ¬ c = '@') :
    (ExecuteFn cb st (c :: rest)).2.1 = st := by
  unfold ExecuteFn
  dsimp only
  rw [if_neg hb, if_neg ha]
  repeat' split
  all_goals simp


/-- Pushing from a state with counter at most 10 establishes `NestInv`. -/
theorem PushInputFn_inv (st : MState) (line : Str)
    (hn : st.shortcutNesting ≤ 10) : NestInv (PushInputFn st line).2 := by
  unfold PushInputFn NestInv
  split
  · rename_i hgt
    refine ⟨by simp; omega, ?_⟩
    intro hp
    simp at hp
  · rename_i hle
    refine ⟨by simp; omega, ?_⟩
    intro _
    simp
    omega


theorem ExpandShortcutFn_inv (cb : Collab) (st : MState) (line : Str)
    (hp : st.pendingShortcut = none) (hn : st.shortcutNesting ≤ 10) :
    NestInv (ExpandShortcutFn cb st line).2.1 := by
  rcases ExpandShortcutFn_state cb st line with h | ⟨result, -, h⟩
  · rw [h]
    exact ⟨by omega, fun hq => absurd hp hq⟩
  · rw [h]
    exact PushInputFn_inv st result hn


theorem ExecuteFn_inv (cb : Collab) (st : MState) (line : Str)
    (hp : st.pendingShortcut = none) (hn : st.shortcutNesting ≤ 10) :
    NestInv (ExecuteFn cb st line).2.1 := by
  match line with
  | [] =>
    unfold ExecuteFn
    dsimp only
    exact ⟨by omega, fun hq => absurd hp hq⟩
  | c :: rest =>
    by_cases hb : c = '!'
    · have h1 : ExecuteFn cb st (c :: rest) = HandleCommandFn cb st (c :: rest) := by
        unfold ExecuteFn
        dsimp only
        rw [if_pos hb]
      rw [h1]
      refine ⟨?_, ?_⟩
      · rw [HandleCommandFn_nesting]
        omega
      · rw [HandleCommandFn_pending, HandleCommandFn_nesting, hp]
        intro hq
        exact absurd rfl hq
    · by_cases ha : c = '@'
      · have h1 : ExecuteFn cb st (c :: rest) = ExpandShortcutFn cb st (c :: rest) := by
          unfold ExecuteFn
          dsimp only
          rw [if_neg hb, if_pos ha]
        rw [h1]
        exact ExpandShortcutFn_inv cb st _ hp hn
      · rw [ExecuteFn_packet_state cb st c rest hb ha]
        exact ⟨by omega, fun hq => absurd hp hq⟩


theorem mainStep_inv (cb : Collab) (st : MState) (stdin : List Str)
    (h : NestInv st) : StepInv (mainStep cb st stdin) := by
  unfold mainStep GetInputFn
  match hpend : st.pendingShortcut with
  | none =>
    match stdin with
    | [] =>
      dsimp only
      exact ⟨by simp, fun hq => by simp [hpend] at hq⟩
    | l :: rest =>
      dsimp only
      have hinv := ExecuteFn_inv cb
        { st with pendingShortcut := none, shortcutNesting := 0 } l (by simp) (by simp)
      match hE : ExecuteFn cb
          { st with pendingShortcut := none, shortcutNesting := 0 } l with
      | (.panic, st2, evs) => exact trivial
      | (.err e, st2, evs) =>
        rw [hE] at hinv
        match e with
        | .quit => exact hinv
        | .missingCommandType => exact hinv
        | .missingChildName => exact hinv
        | .unterminatedStringLiteral => exact hinv
        | .unterminatedChildElement => exact hinv
        | .missingCommandAfterBang => exact hinv
        | .parseFloatError => exact hinv
        | .dialError => exact hinv
        | .transportError => exact hinv
        | .saveError => exact hinv
        | .notConnectedLogin => exact hinv
        | .unsupportedCommand => exact hinv
        | .csvError => exact hinv
        | .missingShortcutName => exact hinv
        | .undefinedShortcut nm => exact hinv
        | .invalidArgumentIndex i => exact hinv
        | .recursionLimitExceeded => exact hinv
        | .notConnected => exact hinv
      | (.ok u, st2, evs) =>
        rw [hE] at hinv
        exact hinv
  | some l =>
    dsimp only
    have hn10 : st.shortcutNesting ≤ 10 := h.2 (by simp [hpend])
    have hinv := ExecuteFn_inv cb { st with pendingShortcut := none } l
      (by simp) (by simpa using hn10)
    match hE : ExecuteFn cb { st with pendingShortcut := none } l with
    | (.panic, st2, evs) => exact trivial
    | (.err e, st2, evs) =>
      rw [hE] at hinv
      match e with
      | .quit => exact hinv
      | .missingCommandType => exact hinv
      | .missingChildName => exact hinv
      | .unterminatedStringLiteral => exact hinv
      | .unterminatedChildElement => exact hinv
      | .missingCommandAfterBang => exact hinv
      | .parseFloatError => exact hinv
      | .dialError => exact hinv
      | .transportError => exact hinv
      | .saveError => exact hinv
      | .notConnectedLogin => exact hinv
      | .unsupportedCommand => exact hinv
      | .csvError => exact hinv
      | .missingShortcutName => exact hinv
      | .undefinedShortcut nm => exact hinv
      | .invalidArgumentIndex i => exact hinv
      | .recursionLimitExceeded => exact hinv
      | .notConnected => exact hinv
    | (.ok u, st2, evs) =>
      rw [hE] at hinv
      exact hinv


theorem runN_inv (cb : Collab) : ∀ n s, RunInv s → RunInv (runN cb n s) := by
  intro n
  induction n with
  | zero => intro s h; exact h
  | succ n ih =>
    intro s h
    match s with
    | .running st stdin =>
      have hstep := mainStep_inv cb st stdin h
      unfold runN
      match hM : mainStep cb st stdin with
      | .next st2 stdin2 evs =>
        rw [hM] at hstep
        exact ih (.running st2 stdin2) hstep
      | .quit st2 evs =>
        rw [hM] at hstep
        exact hstep
      | .crash => exact trivial
    | .done st => exact h
    | .crashed => exact trivial


/-- If `PushInputFn` returns an error, it has cleared the pending buffer. -/
theorem PushInputFn_err_pending (st : MState) (r : Str) (e : Err)
    (hE : (PushInputFn st r).1 = GoResult.err e) :
    (PushInputFn st r).2.pendingShortcut = none := by
  unfold PushInputFn at hE ⊢
  split at hE
  · rename_i hgt
    rw [if_pos hgt]
  · simp at hE


/-- If a shortcut expansion fails and no line was pending beforehand, no line
is pending afterwards (the only error that stores state is the recursion
limit, which clears the buffer). -/
theorem ExpandShortcutFn_err_pending (cb : Collab) (st : MState) (line : Str)
    (e : Err) (hp : st.pendingShortcut = none)
    (hE : (ExpandShortcutFn cb st line).1 = GoResult.err e) :
    (ExpandShortcutFn cb st line).2.1.pendingShortcut = none := by
  rcases ExpandShortcutFn_state cb st line with h | ⟨result, h1, h2⟩
  · rw [h]
    exact hp
  · rw [h2]
    rw [h1] at hE
    exact PushInputFn_err_pending st result e hE


/-- If `Execute` fails and no line was pending beforehand, no line is pending
afterwards. -/
theorem ExecuteFn_err_pending (cb : Collab) (st : MState) (line : Str)
    (e : Err) (hp : st.pendingShortcut = none)
    (hE : (ExecuteFn cb st line).1 = GoResult.err e) :
    (ExecuteFn cb st line).2.1.pendingShortcut = none := by
  match line with
  | [] =>
    unfold ExecuteFn at hE
    simp at hE
  | c :: rest =>
    by_cases hb : c = '!'
    · have h1 : ExecuteFn cb st (c :: rest) = HandleCommandFn cb st (c :: rest) := by
        unfold ExecuteFn
        dsimp only
        rw [if_pos hb]
      rw [h1]
      rw [HandleCommandFn_pending]
      exact hp
    · by_cases ha : c = '@'
      · have h1 : ExecuteFn cb st (c :: rest) = ExpandShortcutFn cb st (c :: rest) := by
          unfold ExecuteFn
          dsimp only
          rw [if_neg hb, if_pos ha]
        rw [h1] at hE ⊢
        exact ExpandShortcutFn_err_pending cb st _ e hp hE
      · rw [ExecuteFn_packet_state cb st c rest hb ha]
        exact hp


/-!
## Claim theorems
-/


/-- Claim C3 counterexample: the nesting-depth counter of the session state
does exceed 10 in a reachable state.  With the shortcut table `a -> "@a"`
(reachable at startup from a `mssh-shortcuts.txt` containing `a:@a`) and the
single interactive line `@a`, after 11 loop iterations the session is
running with the counter at 11: `PushInput` increments before checking the
limit, so the counter transiently holds 11 when the limit error is raised. -/
theorem nesting_exceeds_ten_counterexample :
    nestingOf (runN cbDemo 11 (RunSt.running (initState demoSc) [str "@a"])) = 11 ∧
    10 < nestingOf (runN cbDemo 11 (RunSt.running (initState demoSc) [str "@a"])) := by
  constructor
  · rfl
  · have h : nestingOf
        (runN cbDemo 11 (RunSt.running (initState demoSc) [str "@a"])) = 11 := rfl
    rw [h]
    omega


/-- Claim C3 (amended): the nesting-depth counter is reset to zero on every
fresh interactive read, is incremented (by exactly one) only by pushing a
macro expansion — every non-macro line leaves it unchanged — and in every
reachable state of the session loop its value never exceeds 11; it can
exceed 10 only transiently at the instant the recursion-limit error is
raised, and whenever an expansion is pending in the buffer it is at most
10. -/
theorem nesting_counter_amended :
    (∀ st l rest, st.pendingShortcut = none →
      GetInputFn st (l :: rest) = (some l, { st with shortcutNesting := 0 }, rest)) ∧
    (∀ st l, ((PushInputFn st l).2).shortcutNesting = st.shortcutNesting + 1) ∧
    (∀ cb st c rest, ¬ c = '@' →
      (ExecuteFn cb st (c :: rest)).2.1.shortcutNesting = st.shortcutNesting) ∧
    (∀ cb n s, RunInv s → RunInv (runN cb n s)) := by
  refine ⟨?_, PushInputFn_nesting, ?_, runN_inv⟩
  · intro st l rest hp
    unfold GetInputFn
    rw [hp]
  · intro cb st c rest ha
    by_cases hb : c = '!'
    · have h1 : ExecuteFn cb st (c :: rest) = HandleCommandFn cb st (c :: rest) := by
        unfold ExecuteFn
        dsimp only
        rw [if_pos hb]
      rw [h1, HandleCommandFn_nesting]
    · rw [ExecuteFn_packet_state cb st c rest hb ha]


/-- Witness for the amended claim C3, at a concrete reachable session. -/
theorem nesting_counter_amended_witness :
    GetInputFn (initState demoSc) [str "@a"] =
      (some (str "@a"), { initState demoSc with shortcutNesting := 0 }, []) ∧
    RunInv (runN cbDemo 5 (RunSt.running (initState demoSc) [str "@a"])) := by
  constructor
  · exact nesting_counter_amended.1 (initState demoSc) (str "@a") [] rfl
  · exact nesting_counter_amended.2.2.2 cbDemo 5
      (RunSt.running (initState demoSc) [str "@a"])
      ⟨by simp [initState], fun hq => absurd rfl hq⟩


/-- Claim C4: when pushing a macro expansion would exceed nesting depth 10,
the push fails with the recursion-limit error and clears the one-slot
pending buffer; the loop is not terminated — the iteration that hits the
limit continues — and the next read is a fresh interactive read. -/
theorem push_limit_recovery :
    (∀ st l, 10 ≤ st.shortcutNesting →
      PushInputFn st l = (GoResult.err .recursionLimitExceeded,
        { st with shortcutNesting := st.shortcutNesting + 1, pendingShortcut := none })) ∧
    (∀ cb st stdin line st2 evs,
      st.pendingShortcut = some line →
      ExecuteFn cb { st with pendingShortcut := none } line =
        (GoResult.err .recursionLimitExceeded, st2, evs) →
      mainStep cb st stdin = StepOut.next st2 stdin evs ∧
      st2.pendingShortcut = none ∧
      ∀ l rest, GetInputFn st2 (l :: rest) =
        (some l, { st2 with shortcutNesting := 0 }, rest)) := by
  constructor
  · intro st l hn
    unfold PushInputFn
    rw [if_pos (by omega)]
  · intro cb st stdin line st2 evs hpend hE
    have hpnone : st2.pendingShortcut = none := by
      have h1 := ExecuteFn_err_pending cb { st with pendingShortcut := none } line
        .recursionLimitExceeded (by simp) (by rw [hE])
      rw [hE] at h1
      exact h1
    refine ⟨?_, hpnone, ?_⟩
    · unfold mainStep GetInputFn
      rw [hpend]
      dsimp only
      rw [hE]
    · intro l rest
      unfold GetInputFn
      rw [hpnone]


/-- Witness for claim C4: a session sitting at depth 10 with the recursive
expansion `@a` pending recovers exactly as stated. -/
theorem push_limit_recovery_witness :
    mainStep cbDemo
      { initState demoSc with shortcutNesting := 10, pendingShortcut := some (str "@a") }
      [str "hello"] =
      StepOut.next { initState demoSc with shortcutNesting := 11 } [str "hello"] [] ∧
    ({ initState demoSc with shortcutNesting := 11 } : MState).pendingShortcut = none ∧
    GetInputFn { initState demoSc with shortcutNesting := 11 } [str "x"] =
      (some (str "x"), { initState demoSc with shortcutNesting := 0 }, []) := by
  have h := push_limit_recovery.2 cbDemo
    { initState demoSc with shortcutNesting := 10, pendingShortcut := some (str "@a") }
    [str "hello"] (str "@a") { initState demoSc with shortcutNesting := 11 } []
    rfl (by rfl)
  exact ⟨h.1, h.2.1, h.2.2 (str "x") []⟩


/-- Claim C5 counterexample: on a reconnect, the first transport action is
the dial of the new address, not the close of the old connection — the code
dials before closing, so the claimed close-dial order is wrong. -/
theorem connect_order_counterexample :
    (connectFn cbDemo stConnDemo (str "h2:2")).2.2 =
      [Ev.dial (str "h2:2"), Ev.close ⟨str "mssh", str "h1:1"⟩] ∧
    (connectFn cbDemo stConnDemo (str "h2:2")).2.2 ≠
      [Ev.close ⟨str "mssh", str "h1:1"⟩, Ev.dial (str "h2:2")] := by
  refine ⟨rfl, ?_⟩
  intro h
  have h0 : (connectFn cbDemo stConnDemo (str "h2:2")).2.2 =
      [Ev.dial (str "h2:2"), Ev.close ⟨str "mssh", str "h1:1"⟩] := rfl
  rw [h0] at h
  injection h with h1 _
  exact Ev.noConfusion h1


/-- Claim C5 (amended): on connect, the new address is dialed first; on dial
success an existing old connection is then closed and the session's handle
replaced with the new one (built from the current local name); on dial
failure the state, including the old connection, is untouched. -/
theorem connect_order_amended :
    ∀ cb st address old, st.endPoint = some old →
      (cb.dialOk address = true → cb.closeOk old = true →
        connectFn cb st address =
          (GoResult.ok (), { st with endPoint := some ⟨st.name, address⟩ },
            [Ev.dial address, Ev.close old])) ∧
      (cb.dialOk address = false →
        connectFn cb st address = (GoResult.err .dialError, st, [Ev.dial address])) := by
  intro cb st address old hep
  constructor
  · intro hd hc
    unfold connectFn
    rw [if_pos hd, hep]
    dsimp only
    rw [if_pos hc]
  · intro hd
    unfold connectFn
    rw [if_neg (by rw [hd]; exact Bool.false_ne_true)]


/-- Witness for the amended claim C5 at a concrete connected session. -/
theorem connect_order_amended_witness :
    connectFn cbDemo stConnDemo (str "h2:2") =
      (GoResult.ok (), { stConnDemo with endPoint := some ⟨str "mssh", str "h2:2"⟩ },
        [Ev.dial (str "h2:2"), Ev.close ⟨str "mssh", str "h1:1"⟩]) :=
  (connect_order_amended cbDemo stConnDemo (str "h2:2")
    ⟨str "mssh", str "h1:1"⟩ rfl).1 rfl rfl


/-- Claim C7: a literal packet line executed while no connection is active
fails with the not-connected error, leaving the state untouched and invoking
no collaborator (empty event trace, so the line is never parsed into a
packet nor handed to the transport); prefixing the line with `?` changes
nothing, since `?` is neither the command nor the shortcut marker. -/
theorem disconnected_packet_notConnected :
    ∀ cb st c rest, st.endPoint = none → ¬ c = '!' → ¬ c = '@' →
      ExecuteFn cb st (c :: rest) = (GoResult.err .notConnected, st, []) ∧
      ExecuteFn cb st ('?' :: c :: rest) = (GoResult.err .notConnected, st, []) := by
  intro cb st c rest hep hb ha
  constructor
  · unfold ExecuteFn
    dsimp only
    rw [if_neg hb, if_neg ha, hep]
  · unfold ExecuteFn
    dsimp only
    rw [if_neg (by decide : ¬ '?' = '!'), if_neg (by decide : ¬ '?' = '@'), hep]


/-- Witness for claim C7 at a concrete disconnected session. -/
theorem disconnected_packet_notConnected_witness :
    ExecuteFn cbDemo (initState []) (str "ping") =
      (GoResult.err .notConnected, initState [], []) ∧
    ExecuteFn cbDemo (initState []) (str "?ping") =
      (GoResult.err .notConnected, initState [], []) :=
  disconnected_packet_notConnected cbDemo (initState []) 'p' (str "ing")
    rfl (by decide) (by decide)


/-- `childNameOf` fails only with the missing-child-name error. -/
theorem childNameOf_err (tokRest : Str) (rest : List Str) (e : Err)
    (h : childNameOf tokRest rest = .err e) : e = .missingChildName := by
  unfold childNameOf at h
  split at h
  · simp at h
  · cases rest with
    | nil => simp at h; exact h.symm
    | cons nm rest' => simp at h


/-- `parseTokens` never produces the missing-command-type error: that error
belongs to the dead `len(tokens) < 1` guard of `parsePacketCommand` alone. -/
theorem parseToksF_no_missingCommandType :
    ∀ fuel toks e, parseToksF fuel toks e ≠ some (.err .missingCommandType) := by
  intro fuel
  induction fuel with
  | zero => intro toks e h; simp [parseToksF] at h
  | succ n ih =>
    intro toks e h
    unfold parseToksF at h
    match toks with
    | [] => simp at h
    | tok :: rest =>
      simp only at h
      split at h
      · simp at h
      · match tok with
        | [] => simp at h
        | c :: tokRest =>
          simp only at h
          split at h
          · -- the '<' branch
            split at h
            · simp at h
            · rename_i e' hni
              simp at h
              have := childNameOf_err _ _ _ hni
              rw [this] at h
              exact Err.noConfusion h
            · split at h
              · simp at h
              · simp at h
              · rename_i e' hrec
                simp at h
                rw [h] at hrec
                exact ih _ _ hrec
              · split at h
                · simp at h
                · split at h
                  · exact ih _ _ h
                  · simp at h
          · split at h
            · split at h
              · exact ih _ _ h
              · simp at h
            · split at h
              · split at h
                · simp at h
                · split at h
                  · simp at h
                  · exact ih _ _ h
              · exact ih _ _ h


/-- `parseTokens` inherits the impossibility from `parseToksF`. -/
theorem parseTokens_no_missingCommandType (toks : List Str) (e : PElem) :
    parseTokens toks e ≠ GoResult.err .missingCommandType := by
  unfold parseTokens
  intro h
  match hF : parseToksF (toks.length + 1) toks e with
  | none =>
    rw [hF] at h
    exact GoResult.noConfusion h
  | some r =>
    rw [hF] at h
    simp only [Option.getD_some] at h
    rw [h] at hF
    exact parseToksF_no_missingCommandType _ _ _ hF


/-- Claim C6: the missing-type error is unreachable.  `strings.Split` always
returns at least one (possibly empty) token, so the `len(tokens) < 1` guard
of `parsePacketCommand` is dead code: no input line at all can produce the
missing-command-type error.  In particular the line `?` — whose type token
is missing — parses successfully into a `Request` packet whose `Type`
attribute is the empty string instead of failing. -/
theorem missing_command_type_unreachable :
    (∀ line, parsePacketCommand line ≠ GoResult.err .missingCommandType) ∧
    parsePacketCommand (str "?") =
      GoResult.ok ⟨str "Request", [(str "Type", [])], []⟩ := by
  constructor
  · intro line h
    simp only [parsePacketCommand] at h
    split at h
    · exact GoResult.noConfusion h
    · split at h
      · rename_i hT
        exact splitOnChar_ne_nil _ _ hT
      · split at h
        · exact GoResult.noConfusion h
        · rename_i e hP
          have he : e = Err.missingCommandType := GoResult.err.inj h
          rw [he] at hP
          exact parseTokens_no_missingCommandType _ _ hP
        · exact GoResult.noConfusion h
  · rfl


/-- Claim C8: a packet line whose child element is never closed fails with
the unterminated-child error, and the whole session state — shortcut table,
handle, timeout, identity, peer name, pending buffer and nesting counter —
is returned unchanged, with no collaborator invoked. -/
theorem unterminated_child_frame :
    ∀ cb st line c rest, line = c :: rest → ¬ c = '!' → ¬ c = '@' →
      st.endPoint ≠ none →
      parsePacketCommand line = GoResult.err .unterminatedChildElement →
      ExecuteFn cb st line = (GoResult.err .unterminatedChildElement, st, []) := by
  intro cb st line c rest hl hb ha hep hP
  subst hl
  unfold ExecuteFn
  dsimp only
  rw [if_neg hb, if_neg ha]
  match hE : st.endPoint with
  | none => exact absurd hE hep
  | some ep =>
    rw [hP]


/-- Witness for claim C8 at the concrete line `m <c a=b`. -/
theorem unterminated_child_frame_witness :
    ExecuteFn cbDemo stConnDemo (str "m <c a=b") =
      (GoResult.err .unterminatedChildElement, stConnDemo, []) :=
  unterminated_child_frame cbDemo stConnDemo (str "m <c a=b") 'm' (str " <c a=b")
    rfl (by decide) (by decide) (by decide) rfl


/-- Claim C9: the parser is not total — it panics (index or slice out of
range) on a line of blanks (empty string indexed after trimming), on a line
with two consecutive spaces (empty token indexed), and on a lone `"` token
(slice `token[1:0]`); `Execute` propagates the crash when connected. -/
theorem parser_totality_violations :
    parsePacketCommand (str "   ") = GoResult.panic ∧
    parsePacketCommand (str "a  b") = GoResult.panic ∧
    parsePacketCommand (str "m \"") = GoResult.panic ∧
    (ExecuteFn cbDemo stConnDemo (str "   ")).1 = GoResult.panic :=
  ⟨rfl, rfl, rfl, rfl⟩


/-- Claim C10: the command dispatcher is not total — `!t`, `!c` and `!n`
without their argument index past the end of the token slice (Go panic)
instead of returning an error. -/
theorem dispatcher_totality_violations :
    (ExecuteFn cbDemo (initState []) (str "!t")).1 = GoResult.panic ∧
    (ExecuteFn cbDemo (initState []) (str "!c")).1 = GoResult.panic ∧
    (ExecuteFn cbDemo (initState []) (str "!n")).1 = GoResult.panic :=
  ⟨rfl, rfl, rfl⟩


/-- A string whose first and last characters are not in the cutset is left
unchanged by `strings.Trim(s, " \t")`. -/
theorem trim_id (a b : Char) (mid : Str) (ha : isSpaceTab a = false)
    (hb : isSpaceTab b = false) :
    trimSpaceTab (a :: (mid ++ [b])) = a :: (mid ++ [b]) := by
  unfold trimSpaceTab
  rw [List.dropWhile_cons, ha]
  simp only [Bool.false_eq_true, if_false, List.reverse_cons, List.reverse_append,
    List.reverse_cons, List.reverse_nil, List.nil_append, List.cons_append]
  rw [List.dropWhile_cons, hb]
  simp


/-- `strings.Split` on a string free of the separator is the singleton of
that string. -/
theorem splitOnChar_no_sep (sep : Char) (l : Str) (h : ¬ sep ∈ l) :
    splitOnChar sep l = [l] := by
  induction l with
  | nil => rfl
  | cons c rest ih =>
    have hc : ¬ c = sep := by
      intro hc
      exact h (by rw [hc]; exact List.mem_cons_self sep rest)
    unfold splitOnChar
    rw [if_neg hc, ih (fun hm => h (List.mem_cons_of_mem c hm))]


/-- `strings.Split` on one separator between a separator-free head character
and a separator-free tail yields exactly two tokens. -/
theorem splitOnChar_pair (sep a : Char) (t : Str) (hna : ¬ a = sep)
    (ht : ¬ sep ∈ t) : splitOnChar sep (a :: sep :: t) = [[a], t] := by
  have h2 : splitOnChar sep (sep :: t) = [] :: splitOnChar sep t := by
    rw [splitOnChar]
    rw [if_pos rfl]
  rw [splitOnChar]
  rw [if_neg hna, h2, splitOnChar_no_sep sep t ht]


/-- A single double-quoted token (first and last byte `"`), however its
interior looks, is accepted by `parseTokens` and contributes its interior as
one literal child value. -/
theorem parseToksF_quoted (fuel : Nat) (s : Str) (e : PElem) :
    parseToksF (fuel + 2) ['"' :: (s ++ ['"'])] e =
      some (GoResult.ok ([], { e with children := e.children ++ [Node.value s] })) := by
  have hl : ('"' :: (s ++ ['"'])).getLastD ' ' = '"' := by
    rw [show ('"' :: (s ++ ['"'])) = ('"' :: s) ++ ['"'] by simp]
    exact List.getLastD_concat _ _ _
  rw [parseToksF]
  rw [if_neg (show ¬ ('"' :: (s ++ ['"'])) = ['>'] by simp)]
  rw [if_neg (by decide : ¬ '"' = '<')]
  rw [if_neg (show ¬ ('"' ≠ '"' ∧ ('"' :: (s ++ ['"'])).contains '=') by simp)]
  rw [if_pos (rfl : '"' = '"')]
  rw [if_neg (show ¬ ('"' :: (s ++ ['"'])).getLastD ' ' ≠ '"' by rw [hl]; simp)]
  rw [if_neg (show ¬ ('"' :: (s ++ ['"'])).length < 2 by simp)]
  rw [show (('"' :: (s ++ ['"'])).drop 1).dropLast = s by
    simp [List.dropLast_concat]]
  rw [parseToksF]


/-- Claim C1 counterexample: the tokenizer does not keep a double-quoted
span with an inner space as one token — `strings.Split` cuts at every
space — so the line `m "a b"` fails with the unterminated-string error
instead of producing the literal child value `a b`. -/
theorem quoted_span_counterexample :
    parsePacketCommand (str "m \"a b\"") =
      GoResult.err .unterminatedStringLiteral ∧
    ¬ ∃ e, parsePacketCommand (str "m \"a b\"") = GoResult.ok e ∧
      e.children = [Node.value (str "a b")] := by
  refine ⟨rfl, ?_⟩
  rintro ⟨e, he, -⟩
  have h0 : parsePacketCommand (str "m \"a b\"") =
      GoResult.err .unterminatedStringLiteral := rfl
  rw [h0] at he
  exact GoResult.noConfusion he


/-- Claim C1 (amended): a double-quoted token whose span contains no space
(the tokenizer splits on every space, quoted or not) and no embedded quote
round-trips: parsing `m "<span>"` yields a `Message` element whose sole
literal child value is exactly the span. -/
theorem quoted_value_roundtrip_amended :
    ∀ s : Str, ¬ ' ' ∈ s → ¬ '"' ∈ s →
      parsePacketCommand ('m' :: ' ' :: '"' :: (s ++ ['"'])) =
        GoResult.ok ⟨str "Message", [(str "Type", str "m")], [Node.value s]⟩ := by
  intro s hs _hq
  have hmq : ¬ 'm' = '?' := by decide
  have htrim : trimSpaceTab ('m' :: ' ' :: '"' :: (s ++ ['"'])) =
      'm' :: ' ' :: '"' :: (s ++ ['"']) := by
    have h := trim_id 'm' '"' (' ' :: '"' :: s) (by decide) (by decide)
    simpa using h
  have ht : ¬ ' ' ∈ ('"' :: (s ++ ['"'])) := by
    simp [hs]
  have hsplit : splitOnChar ' ' ('m' :: ' ' :: '"' :: (s ++ ['"'])) =
      [['m'], '"' :: (s ++ ['"'])] :=
    splitOnChar_pair ' ' 'm' ('"' :: (s ++ ['"'])) (by decide) ht
  simp only [parsePacketCommand]
  rw [htrim]
  dsimp only
  rw [if_neg hmq, if_neg hmq, hsplit]
  dsimp only
  have hPT : parseTokens ['"' :: (s ++ ['"'])]
      ⟨str "Message", setAttr [] (str "Type") ['m'], []⟩ =
      GoResult.ok ([],
        { name := str "Message", attrs := setAttr [] (str "Type") ['m'],
          children := [] ++ [Node.value s] }) := by
    unfold parseTokens
    rw [show ((['"' :: (s ++ ['"'])] : List Str).length + 1) = 0 + 2 from rfl]
    rw [parseToksF_quoted 0 s ⟨str "Message", setAttr [] (str "Type") ['m'], []⟩]
    rfl
  rw [hPT]
  rfl


/-- Witness for the amended claim C1 at the concrete span `ab`. -/
theorem quoted_value_roundtrip_amended_witness :
    parsePacketCommand (str "m \"ab\"") =
      GoResult.ok ⟨str "Message", [(str "Type", str "m")], [Node.value (str "ab")]⟩ :=
  quoted_value_roundtrip_amended (str "ab") (by decide) (by decide)


/-- Claim C2 counterexample: the substitution loop does not replace every
eligible `$`-digit pair — a `$` at the very start of the template (the `i >
0` guard) is copied verbatim even though it is unescaped, followed by a
digit and not final — and a `$` followed by a non-digit in substitutable
position does not pass through but fails with an invalid-argument-index
error computed from the byte (here `x`, index 72). -/
theorem substitution_counterexample :
    expandLoop (str "$1") [str "s", str "foo"] 0 [] = GoResult.ok (str "$1") ∧
    (GoResult.ok (str "$1") : GoResult Str) ≠ GoResult.ok (str "foo") ∧
    expandLoop (str "a$x") [str "s", str "foo"] 0 [] =
      GoResult.err (.invalidArgumentIndex 72) :=
  ⟨rfl, by decide, rfl⟩


/-- Witness for the amended claim C2 at a concrete template and arguments
(the template `x$1 $2` with arguments `ping` and `22`). -/
theorem expandLoop_eq_specSubst_witness :
    expandLoop (str "x$1 $2") [str "s", str "ping", str "22"] 0 [] =
      specSubst (str "x$1 $2") [str "s", str "ping", str "22"] :=
  expandLoop_eq_specSubst (str "x$1 $2") [str "s", str "ping", str "22"]

/-- Witness for claim C6 at a concrete line. -/
theorem missing_command_type_unreachable_witness :
    parsePacketCommand (str "m x") ≠ GoResult.err Err.missingCommandType :=
  missing_command_type_unreachable.1 (str "m x")

end Mssh
